import Mathlib

/-!
# Verification of the `AsyncRateLimiter` token bucket
  (`src/codex_template/core/utils.py`)

Shallow embedding of the async token-bucket rate limiter. The Python class
keeps four instance attributes (`rate`, `burst`, `tokens`, `last_update`)
and exposes one operation, `acquire(tokens=1)`. Time values returned by the
monotonic clock (`time.monotonic()`) are modelled as an explicit `now : ℚ`
argument; monotonicity (`now` never smaller than the previously observed
reading `last_update`) is a hypothesis where it matters. Real-number
arithmetic on times and token counts is modelled over `ℚ`.

The `acquire` coroutine is serialized by an `asyncio.Lock`, so each call's
critical section runs atomically; the embedding is the state transformer of
one whole call. The duration passed to `asyncio.sleep` on the wait path (0
on the immediate path) is returned alongside the post state. A raised
`ValueError` is modelled by the `raised` outcome; it carries the object
state at raise time, which in the source is the pristine state because the
`raise` precedes the lock acquisition and every field assignment.
-/

/-- The mutable state of one `AsyncRateLimiter` instance: set up by
`__init__` and mutated only inside `acquire`'s critical section.
`rate` is tokens per second, `burst` the maximum bucket size (a Python
`int`), `tokens` the current token count (becomes a float after the first
refill), `last_update` the last monotonic-clock reading stored. -/
structure AsyncRateLimiter where
  rate : ℚ
  burst : ℤ
  tokens : ℚ
  last_update : ℚ
deriving Repr, DecidableEq

/-- `AsyncRateLimiter.__init__(rate, burst)` (the Python default is
`burst = 1`): the bucket starts full (`self.tokens = burst`) and records
the current monotonic reading (`self.last_update = time.monotonic()`),
modelled as the argument `now`. -/
def AsyncRateLimiter.init (rate : ℚ) (burst : ℤ) (now : ℚ) : AsyncRateLimiter :=
  ⟨rate, burst, (burst : ℚ), now⟩

/-- Outcome of one `acquire` call: either `raised` (the `ValueError` path,
carrying the limiter state at raise time) or `ok wait s` (normal return,
where `wait` is the duration passed to `asyncio.sleep` during the call —
`0` when the immediate path ran — and `s` the limiter state on return). -/
inductive AcquireResult where
  | raised (s : AsyncRateLimiter)
  | ok (wait : ℚ) (s : AsyncRateLimiter)
deriving Repr, DecidableEq

/-- `AsyncRateLimiter.acquire(tokens=1)`, one full call (the critical
section is atomic under `self._lock`). `now` models the
`time.monotonic()` reading taken at the top of the critical section.
Mirrors the source line by line: the burst check and `raise` come first
(before the lock and any mutation); then `elapsed = now - self.last_update`,
`self.tokens = min(self.burst, self.tokens + elapsed * self.rate)`,
`self.last_update = now`; then either the wait path
(`wait_time = (tokens - self.tokens) / self.rate`; sleep; `self.tokens = 0`)
or the immediate path (`self.tokens -= tokens`). -/
def AsyncRateLimiter.acquire (s : AsyncRateLimiter) (tokens : ℤ) (now : ℚ) :
    AcquireResult :=
  if tokens > s.burst then
    .raised s
  else
    let elapsed := now - s.last_update
    let tokens1 := min ((s.burst : ℚ)) (s.tokens + elapsed * s.rate)
    if tokens1 < (tokens : ℚ) then
      let wait_time := ((tokens : ℚ) - tokens1) / s.rate
      .ok wait_time ⟨s.rate, s.burst, 0, now⟩
    else
      .ok 0 ⟨s.rate, s.burst, tokens1 - (tokens : ℚ), now⟩

/-- The refill step alone (source lines `elapsed = now - self.last_update`,
`self.tokens = min(...)`, `self.last_update = now`), as a state
transformer: used to state that `acquire` factors through it. -/
def AsyncRateLimiter.refill (s : AsyncRateLimiter) (now : ℚ) : AsyncRateLimiter :=
  ⟨s.rate, s.burst, min ((s.burst : ℚ)) (s.tokens + (now - s.last_update) * s.rate), now⟩

/-- The limiter state an `acquire` call leaves behind (on the raise path
the source has mutated nothing, so the state at raise time is the input
state). -/
def AcquireResult.state : AcquireResult → AsyncRateLimiter
  | .raised s => s
  | .ok _ s => s

/-- The total time the call slept (a raising call never sleeps). -/
def AcquireResult.wait : AcquireResult → ℚ
  | .raised _ => 0
  | .ok w _ => w

/-- The bucket invariant claimed by the spec: `0 ≤ currentTokens ≤ capacity`. -/
def AsyncRateLimiter.Inv (s : AsyncRateLimiter) : Prop :=
  0 ≤ s.tokens ∧ s.tokens ≤ (s.burst : ℚ)

/-- Modelled from the spec: the spec's step-by-step description of
`acquire` past the precondition check (section 4.1, steps 1–4): refill
first, then `currentTokens ≥ tokensRequested` decides between the
immediate-deduct path and the wait path. Written from the spec's words, to
be compared with `AsyncRateLimiter.acquire` (written from the source). -/
def acquireSpecSteps (s : AsyncRateLimiter) (tokens : ℤ) (now : ℚ) : AcquireResult :=
  let s1 := AsyncRateLimiter.refill s now
  if (tokens : ℚ) ≤ s1.tokens then
    .ok 0 ⟨s1.rate, s1.burst, s1.tokens - (tokens : ℚ), s1.last_update⟩
  else
    .ok (((tokens : ℚ) - s1.tokens) / s.rate) ⟨s1.rate, s1.burst, 0, s1.last_update⟩

lemma acquire_eq_of_le {s : AsyncRateLimiter} {tokens : ℤ} (now : ℚ)
    (h : tokens ≤ s.burst) :
    AsyncRateLimiter.acquire s tokens now =
      if (AsyncRateLimiter.refill s now).tokens < (tokens : ℚ) then
        .ok (((tokens : ℚ) - (AsyncRateLimiter.refill s now).tokens) / s.rate)
          ⟨s.rate, s.burst, 0, now⟩
      else
        .ok 0 ⟨s.rate, s.burst, (AsyncRateLimiter.refill s now).tokens - (tokens : ℚ), now⟩ := by
  simp only [AsyncRateLimiter.acquire, AsyncRateLimiter.refill, if_neg (not_lt.mpr h)]

lemma acquire_wait_path {s : AsyncRateLimiter} {tokens : ℤ} {now : ℚ}
    (h : tokens ≤ s.burst) (hw : (AsyncRateLimiter.refill s now).tokens < (tokens : ℚ)) :
    AsyncRateLimiter.acquire s tokens now =
      .ok (((tokens : ℚ) - (AsyncRateLimiter.refill s now).tokens) / s.rate)
        ⟨s.rate, s.burst, 0, now⟩ := by
  rw [acquire_eq_of_le now h, if_pos hw]

lemma acquire_immediate_path {s : AsyncRateLimiter} {tokens : ℤ} {now : ℚ}
    (h : tokens ≤ s.burst) (hi : (tokens : ℚ) ≤ (AsyncRateLimiter.refill s now).tokens) :
    AsyncRateLimiter.acquire s tokens now =
      .ok 0 ⟨s.rate, s.burst, (AsyncRateLimiter.refill s now).tokens - (tokens : ℚ), now⟩ := by
  rw [acquire_eq_of_le now h, if_neg (not_lt.mpr hi)]

lemma acquire_raised_of_gt {s : AsyncRateLimiter} {tokens : ℤ} (now : ℚ)
    (h : s.burst < tokens) :
    AsyncRateLimiter.acquire s tokens now = .raised s := by
  simp only [AsyncRateLimiter.acquire, if_pos h]

lemma acquire_ne_raised_of_le {s : AsyncRateLimiter} {tokens : ℤ} (now : ℚ)
    (h : tokens ≤ s.burst) (e : AsyncRateLimiter) :
    AsyncRateLimiter.acquire s tokens now ≠ .raised e := by
  rw [acquire_eq_of_le now h]
  split_ifs <;> simp

/-- Claim C4: with `rate > 0`, an `acquire(tokensRequested)` call raises if
and only if `tokensRequested > burst`; the single `raised` outcome
(`ValueError` in the source, the spec's one `InvalidRequest` kind) is the
only non-`ok` outcome, and a raising call sleeps for no time at all (it is
decided synchronously before the lock, the refill and any waiting). -/
theorem acquire_raises_iff_burst_exceeded (s : AsyncRateLimiter) (tokens : ℤ)
    (now : ℚ) (hr : 0 < s.rate) :
    ((∃ e, AsyncRateLimiter.acquire s tokens now = .raised e) ↔ s.burst < tokens) ∧
      (∀ e, AsyncRateLimiter.acquire s tokens now = .raised e →
        (AsyncRateLimiter.acquire s tokens now).wait = 0) := by
  constructor
  · constructor
    · rintro ⟨e, he⟩
      by_contra hgt
      exact acquire_ne_raised_of_le now (not_lt.mp hgt) e he
    · intro h
      exact ⟨s, acquire_raised_of_gt now h⟩
  · intro e he
    rw [he]
    rfl

/-- Witness for C4 at `rate = 1`, `burst = 1`, `tokensRequested = 2`. -/
theorem acquire_raises_iff_burst_exceeded_witness :
    ((∃ e, AsyncRateLimiter.acquire ⟨1, 1, 1, 0⟩ 2 0 = .raised e) ↔ (1 : ℤ) < 2) ∧
      (∀ e, AsyncRateLimiter.acquire ⟨1, 1, 1, 0⟩ 2 0 = .raised e →
        (AsyncRateLimiter.acquire ⟨1, 1, 1, 0⟩ 2 0).wait = 0) :=
  acquire_raises_iff_burst_exceeded ⟨1, 1, 1, 0⟩ 2 0 (by norm_num)

/-- Claim C10: when `acquire` raises because `tokensRequested > burst`, the
limiter state is exactly the pre-call state — in the source the `raise`
precedes the lock acquisition, the refill and every field assignment, so
`tokens` and `last_update` are untouched (error atomicity). The `raised`
outcome returns the input state itself. -/
theorem acquire_error_atomic (s : AsyncRateLimiter) (tokens : ℤ) (now : ℚ)
    (h : s.burst < tokens) :
    AsyncRateLimiter.acquire s tokens now = .raised s ∧
      (AsyncRateLimiter.acquire s tokens now).state.tokens = s.tokens ∧
      (AsyncRateLimiter.acquire s tokens now).state.last_update = s.last_update := by
  have he := acquire_raised_of_gt now h
  exact ⟨he, by simp [he, AcquireResult.state], by simp [he, AcquireResult.state]⟩

/-- Witness for C10: `acquire(2)` on a `burst = 1` limiter with a distinctive
state leaves that state untouched. -/
theorem acquire_error_atomic_witness :
    AsyncRateLimiter.acquire ⟨1, 1, 1/2, 7⟩ 2 9 = .raised ⟨1, 1, 1/2, 7⟩ ∧
      (AsyncRateLimiter.acquire ⟨1, 1, 1/2, 7⟩ 2 9).state.tokens = 1/2 ∧
      (AsyncRateLimiter.acquire ⟨1, 1, 1/2, 7⟩ 2 9).state.last_update = 7 :=
  acquire_error_atomic ⟨1, 1, 1/2, 7⟩ 2 9 (by norm_num)

/-- Claim C5: every `acquire` call that passes the burst precondition first
performs the refill step — `elapsed = now - lastRefillTimestamp` from the
monotonic reading `now`, `currentTokens := min(capacity, currentTokens +
elapsed * rate)`, `lastRefillTimestamp := now` — and only then decides
between the immediate and the waiting path: `acquire` coincides with the
spec's step-by-step description `acquireSpecSteps`, which factors through
`AsyncRateLimiter.refill`; the refilled state has exactly the claimed
token count and timestamp. -/
theorem acquire_refills_first (s : AsyncRateLimiter) (tokens : ℤ) (now : ℚ)
    (h : tokens ≤ s.burst) :
    AsyncRateLimiter.acquire s tokens now = acquireSpecSteps s tokens now ∧
      (AsyncRateLimiter.refill s now).tokens =
        min ((s.burst : ℚ)) (s.tokens + (now - s.last_update) * s.rate) ∧
      (AsyncRateLimiter.refill s now).last_update = now := by
  refine ⟨?_, rfl, rfl⟩
  rw [acquire_eq_of_le now h]
  simp only [acquireSpecSteps, AsyncRateLimiter.refill]
  split_ifs with h1 h2 h2
  · exact absurd h1 (not_lt.mpr h2)
  · rfl
  · rfl
  · exact absurd (not_lt.mp h1) (by simpa using h2)

/-- Witness for C5 on a half-full bucket with time elapsed. -/
theorem acquire_refills_first_witness :
    AsyncRateLimiter.acquire ⟨2, 4, 1, 3⟩ 2 4 = acquireSpecSteps ⟨2, 4, 1, 3⟩ 2 4 ∧
      (AsyncRateLimiter.refill ⟨2, 4, 1, 3⟩ 4).tokens =
        min ((4 : ℚ)) (1 + (4 - 3) * 2) ∧
      (AsyncRateLimiter.refill ⟨2, 4, 1, 3⟩ 4).last_update = 4 :=
  acquire_refills_first ⟨2, 4, 1, 3⟩ 2 4 (by norm_num)

/-- Claim C2: on the wait path (after the refill step the bucket holds
fewer than `tokensRequested` tokens, with `tokensRequested ≤ burst` and
`rate > 0`), `acquire` sleeps for exactly
`waitSeconds = (tokensRequested - currentTokens) / rate` and then sets
`currentTokens` to exactly `0` — not to a value recomputed from the time
elapsed while sleeping (`last_update` stays at the pre-sleep reading
`now`). -/
theorem acquire_wait_path_sets_tokens_zero (s : AsyncRateLimiter) (tokens : ℤ)
    (now : ℚ) (hr : 0 < s.rate) (h : tokens ≤ s.burst)
    (hw : (AsyncRateLimiter.refill s now).tokens < (tokens : ℚ)) :
    AsyncRateLimiter.acquire s tokens now =
      .ok (((tokens : ℚ) - (AsyncRateLimiter.refill s now).tokens) / s.rate)
        ⟨s.rate, s.burst, 0, now⟩ := by
  exact acquire_wait_path h hw

/-- Witness for C2: empty bucket, `rate = 2`, `acquire(1)` sleeps `1/2` s and
zeroes the bucket. -/
theorem acquire_wait_path_sets_tokens_zero_witness :
    AsyncRateLimiter.acquire ⟨2, 1, 0, 0⟩ 1 0 = .ok (1/2) ⟨2, 1, 0, 0⟩ := by
  have h := acquire_wait_path_sets_tokens_zero ⟨2, 1, 0, 0⟩ 1 0 (by norm_num)
    (by norm_num) (by norm_num [AsyncRateLimiter.refill, min_def])
  simpa [AsyncRateLimiter.refill, min_def] using h

/-- Claim C6: on the immediate path (after the refill step the bucket holds
at least `tokensRequested` tokens), `acquire` deducts exactly
`tokensRequested` from the refilled token count and returns with zero
wait — no sleeping occurs. -/
theorem acquire_immediate_path_deducts (s : AsyncRateLimiter) (tokens : ℤ)
    (now : ℚ) (h : tokens ≤ s.burst)
    (hi : (tokens : ℚ) ≤ (AsyncRateLimiter.refill s now).tokens) :
    AsyncRateLimiter.acquire s tokens now =
      .ok 0 ⟨s.rate, s.burst, (AsyncRateLimiter.refill s now).tokens - (tokens : ℚ), now⟩ := by
  exact acquire_immediate_path h hi

/-- Witness for C6: a full `burst = 3` bucket serves `acquire(2)` at once,
leaving one token. -/
theorem acquire_immediate_path_deducts_witness :
    AsyncRateLimiter.acquire ⟨1, 3, 3, 0⟩ 2 0 = .ok 0 ⟨1, 3, 1, 0⟩ := by
  have h := acquire_immediate_path_deducts ⟨1, 3, 3, 0⟩ 2 0 (by norm_num)
    (by norm_num [AsyncRateLimiter.refill, min_def])
  norm_num [AsyncRateLimiter.refill, min_def] at h
  exact h

lemma refill_tokens_nonneg {s : AsyncRateLimiter} {now : ℚ} (h0 : 0 ≤ s.tokens)
    (hm : s.last_update ≤ now) (hr : 0 ≤ s.rate) (hb : 0 ≤ s.burst) :
    0 ≤ (AsyncRateLimiter.refill s now).tokens := by
  simp only [AsyncRateLimiter.refill]
  exact le_min (by exact_mod_cast hb)
    (add_nonneg h0 (mul_nonneg (sub_nonneg.mpr hm) hr))

lemma refill_tokens_le_burst (s : AsyncRateLimiter) (now : ℚ) :
    (AsyncRateLimiter.refill s now).tokens ≤ (s.burst : ℚ) :=
  min_le_left _ _

lemma acquire_ok_rate_burst {s s' : AsyncRateLimiter} {tokens : ℤ} {now w : ℚ}
    (h : AsyncRateLimiter.acquire s tokens now = .ok w s') :
    s'.rate = s.rate ∧ s'.burst = s.burst := by
  by_cases hgt : tokens > s.burst
  · rw [acquire_raised_of_gt now hgt] at h
    exact absurd h (by simp)
  · rw [acquire_eq_of_le now (not_lt.mp hgt)] at h
    split_ifs at h <;>
      (simp only [AcquireResult.ok.injEq] at h; obtain ⟨-, hs⟩ := h; subst hs;
       exact ⟨rfl, rfl⟩)

lemma acquire_ok_inv {s s' : AsyncRateLimiter} {tokens : ℤ} {now w : ℚ}
    (hr : 0 < s.rate) (hb : 1 ≤ s.burst) (ht : 0 ≤ tokens)
    (hm : s.last_update ≤ now) (h0 : 0 ≤ s.tokens)
    (h : AsyncRateLimiter.acquire s tokens now = .ok w s') :
    0 ≤ s'.tokens ∧ s'.tokens ≤ (s.burst : ℚ) := by
  have hb0 : (0 : ℚ) ≤ (s.burst : ℚ) := by exact_mod_cast (by omega : (0 : ℤ) ≤ s.burst)
  by_cases hgt : tokens > s.burst
  · rw [acquire_raised_of_gt now hgt] at h
    exact absurd h (by simp)
  · rw [acquire_eq_of_le now (not_lt.mp hgt)] at h
    have hRle := refill_tokens_le_burst s now
    split_ifs at h with hcase
    · simp only [AcquireResult.ok.injEq] at h
      obtain ⟨-, hs⟩ := h
      subst hs
      exact ⟨le_refl 0, hb0⟩
    · simp only [AcquireResult.ok.injEq] at h
      obtain ⟨-, hs⟩ := h
      subst hs
      have htq : (0 : ℚ) ≤ (tokens : ℚ) := by exact_mod_cast ht
      have := not_lt.mp hcase
      exact ⟨by simpa using sub_nonneg.mpr this, by simp; linarith⟩

/-- The states a limiter can pass through under a finite sequence of
`acquire` calls with non-negative token requests, each made at a clock
reading no earlier than the limiter's stored `last_update` (the monotonic
clock never runs backward). Calls that raise (`tokensRequested > burst`)
leave the state untouched (`acquire_error_atomic`), so they do not change
the set of states passed through and need no constructor of their own. -/
inductive ReachableNN : AsyncRateLimiter → AsyncRateLimiter → Prop
  | refl (s : AsyncRateLimiter) : ReachableNN s s
  | step (s s₁ s₂ : AsyncRateLimiter) (tokens : ℤ) (now w : ℚ) :
      ReachableNN s s₁ → 0 ≤ tokens → s₁.last_update ≤ now →
      AsyncRateLimiter.acquire s₁ tokens now = .ok w s₂ → ReachableNN s s₂

lemma reachableNN_inv {s s' : AsyncRateLimiter} (hr : 0 < s.rate)
    (hb : 1 ≤ s.burst) (h0 : AsyncRateLimiter.Inv s) (h : ReachableNN s s') :
    AsyncRateLimiter.Inv s' ∧ s'.rate = s.rate ∧ s'.burst = s.burst := by
  induction h with
  | refl => exact ⟨h0, rfl, rfl⟩
  | step s₁ s₂ tokens now w hreach ht hm hacq ih =>
    obtain ⟨⟨hi0, hi1⟩, hrate, hburst⟩ := ih
    have hfield := acquire_ok_rate_burst hacq
    have hinv := acquire_ok_inv (s := s₁) (by rw [hrate]; exact hr)
      (by rw [hburst]; exact hb) ht hm hi0 hacq
    refine ⟨⟨hinv.1, ?_⟩, hfield.1.trans hrate, hfield.2.trans hburst⟩
    rw [hfield.2, hburst]
    exact hinv.2.trans (by rw [hburst])

/-- Claim C1 (amended): for every limiter constructed with `rate > 0` and
positive integer `burst`, after any finite sequence of `acquire` calls
*with non-negative token requests* made at monotone clock readings, the
bucket invariant `0 ≤ currentTokens ≤ capacity` holds at every observation
point, starting from the initial `currentTokens = capacity`. (States
before and after each critical section are exactly the states of
`ReachableNN`; raising calls change nothing. Without the non-negativity
restriction the claim fails: see the counterexample, where a single
`acquire(-1)` pushes `currentTokens` above `capacity`.) -/
theorem acquire_invariant_reachable (rate : ℚ) (burst : ℤ) (now0 : ℚ)
    (s : AsyncRateLimiter) (hr : 0 < rate) (hb : 1 ≤ burst)
    (h : ReachableNN (AsyncRateLimiter.init rate burst now0) s) :
    0 ≤ s.tokens ∧ s.tokens ≤ (burst : ℚ) := by
  have hb0 : (0 : ℚ) ≤ (burst : ℚ) := by exact_mod_cast (by omega : (0 : ℤ) ≤ burst)
  have hinit : AsyncRateLimiter.Inv (AsyncRateLimiter.init rate burst now0) :=
    ⟨hb0, le_refl _⟩
  obtain ⟨⟨h1, h2⟩, -, hburst⟩ := reachableNN_inv hr hb hinit h
  exact ⟨h1, by rwa [hburst] at h2⟩

/-- Witness for C1 (amended): rate 1, burst 1, one `acquire(1)` call. -/
theorem acquire_invariant_reachable_witness :
    0 ≤ (⟨1, 1, 0, 0⟩ : AsyncRateLimiter).tokens ∧
      (⟨1, 1, 0, 0⟩ : AsyncRateLimiter).tokens ≤ ((1 : ℤ) : ℚ) :=
  acquire_invariant_reachable 1 1 0 ⟨1, 1, 0, 0⟩ (by norm_num) (by norm_num)
    (ReachableNN.step _ _ _ 1 0 0 (ReachableNN.refl _) (by norm_num)
      (by norm_num [AsyncRateLimiter.init])
      (by norm_num [AsyncRateLimiter.acquire, AsyncRateLimiter.init, min_def]))

/-- Counterexample to C1 as stated: a limiter with `rate = 1 > 0` and
positive `burst = 1`, after the one-call sequence `acquire(-1)` made at a
monotone instant, reaches `currentTokens = 2 > 1 = capacity`: the
invariant `0 ≤ currentTokens ≤ capacity` fails at the observation point
right after that call's critical section. -/
theorem acquire_invariant_counterexample :
    AsyncRateLimiter.acquire (AsyncRateLimiter.init 1 1 0) (-1) 0 =
      .ok 0 ⟨1, 1, 2, 0⟩ ∧ ¬ AsyncRateLimiter.Inv ⟨1, 1, 2, 0⟩ := by
  constructor
  · norm_num [AsyncRateLimiter.acquire, AsyncRateLimiter.init, min_def]
  · intro hinv
    have := hinv.2
    norm_num at this

/-- Claim C9: `acquire` does not validate that `tokensRequested` is
positive. For every `tokensRequested ≤ 0` (on a well-formed limiter state
observed at a monotone instant) the call never raises and returns with
zero wait, the deduction step turning into an addition of
`|tokensRequested|` with no capacity cap; in particular a single
`acquire(-1)` on a full bucket with zero elapsed time leaves
`currentTokens = capacity + 1`, exceeding `capacity`. -/
theorem acquire_nonpositive_tokens (s : AsyncRateLimiter) (tokens : ℤ) (now : ℚ)
    (hr : 0 < s.rate) (hb : 1 ≤ s.burst) (h0 : 0 ≤ s.tokens)
    (hm : s.last_update ≤ now) (ht : tokens ≤ 0) :
    (AsyncRateLimiter.acquire s tokens now =
      .ok 0 ⟨s.rate, s.burst,
        (AsyncRateLimiter.refill s now).tokens + |(tokens : ℚ)|, now⟩) ∧
      (s.tokens = (s.burst : ℚ) → now = s.last_update → tokens = -1 →
        (AsyncRateLimiter.refill s now).tokens + |(tokens : ℚ)| = (s.burst : ℚ) + 1 ∧
          (s.burst : ℚ) < (AsyncRateLimiter.refill s now).tokens + |(tokens : ℚ)|) := by
  have htq : (tokens : ℚ) ≤ 0 := by exact_mod_cast ht
  have habs : |(tokens : ℚ)| = -(tokens : ℚ) := abs_of_nonpos htq
  have hR0 : 0 ≤ (AsyncRateLimiter.refill s now).tokens :=
    refill_tokens_nonneg h0 hm (le_of_lt hr) (by omega)
  constructor
  · have h := @acquire_immediate_path s tokens now (by omega) (htq.trans hR0)
    rw [h, habs]
    ring_nf
  · intro hfull helapsed hneg
    have hRfull : (AsyncRateLimiter.refill s now).tokens = (s.burst : ℚ) := by
      simp [AsyncRateLimiter.refill, helapsed, hfull]
    subst hneg
    rw [hRfull, habs]
    norm_num

/-- Witness for C9: full `burst = 1` bucket, `acquire(-1)` at zero elapsed
time yields `currentTokens = 2`. -/
theorem acquire_nonpositive_tokens_witness :
    (AsyncRateLimiter.acquire ⟨1, 1, 1, 0⟩ (-1) 0 =
      .ok 0 ⟨1, 1, (AsyncRateLimiter.refill ⟨1, 1, 1, 0⟩ 0).tokens + |((-1 : ℤ) : ℚ)|, 0⟩) ∧
      ((1 : ℚ) = ((1 : ℤ) : ℚ) → (0 : ℚ) = (0 : ℚ) → (-1 : ℤ) = -1 →
        (AsyncRateLimiter.refill ⟨1, 1, 1, 0⟩ 0).tokens + |((-1 : ℤ) : ℚ)| = ((1 : ℤ) : ℚ) + 1 ∧
          ((1 : ℤ) : ℚ) < (AsyncRateLimiter.refill ⟨1, 1, 1, 0⟩ 0).tokens + |((-1 : ℤ) : ℚ)|) :=
  acquire_nonpositive_tokens ⟨1, 1, 1, 0⟩ (-1) 0 (by norm_num) (by norm_num)
    (by norm_num) (by norm_num) (by norm_num)

/-- Counterexample to C3 as stated: on a limiter with `rate = 1`,
`burst = 1`, an `acquire(1)` call on the empty bucket takes the wait path,
sleeping exactly `1` second and returning at monotonic time `1` (first
conjunct). The immediately following `acquire(1)` — issued at that very
reading, with no delay after the first call returned — completes with
wait `0`, not ≈1.0 s (second conjunct): the wait path zeroes `tokens` but
leaves `last_update` at the pre-sleep reading, so the slept second is
re-credited by the next call's refill step. -/
theorem acquire_after_wait_counterexample :
    AsyncRateLimiter.acquire ⟨1, 1, 0, 0⟩ 1 0 = .ok 1 ⟨1, 1, 0, 0⟩ ∧
      AsyncRateLimiter.acquire ⟨1, 1, 0, 0⟩ 1 1 = .ok 0 ⟨1, 1, 0, 1⟩ := by
  constructor <;> norm_num [AsyncRateLimiter.acquire, min_def]

/-- Claim C3 (amended): on a limiter with `rate = 1.0`, after an
`acquire(1)` call that took the wait path (sleeping `w > 0` seconds)
returns, a subsequent immediate `acquire(1)` call waits exactly `1 - w`
seconds — the fractional token remainder the wait path discarded when it
reset `currentTokens` to `0` — which is strictly less than `1` second,
not ≈1.0 s: because `lastRefillTimestamp` is left at the pre-sleep
reading, the slept duration is re-credited by the refill step of the next
call, and only the discarded remainder must be re-accrued. -/
theorem acquire_after_wait_partial_credit (s s₁ : AsyncRateLimiter) (now w : ℚ)
    (hrate : s.rate = 1) (hb : 1 ≤ s.burst) (h0 : 0 ≤ s.tokens)
    (hm : s.last_update ≤ now) (hwpos : 0 < w)
    (hacq : AsyncRateLimiter.acquire s 1 now = .ok w s₁) :
    ∃ s₂, AsyncRateLimiter.acquire s₁ 1 (now + w) = .ok (1 - w) s₂ ∧
      1 - w = (AsyncRateLimiter.refill s now).tokens ∧ 1 - w < 1 := by
  have hbq : (1 : ℚ) ≤ (s.burst : ℚ) := by exact_mod_cast hb
  have hr0 : 0 ≤ (AsyncRateLimiter.refill s now).tokens :=
    refill_tokens_nonneg h0 hm (by rw [hrate]; norm_num) (by omega)
  rw [acquire_eq_of_le now hb] at hacq
  split_ifs at hacq with hcase
  · simp only [AcquireResult.ok.injEq] at hacq
    obtain ⟨hw, hs⟩ := hacq
    subst hs
    have hw' : w = 1 - (AsyncRateLimiter.refill s now).tokens := by
      rw [← hw, hrate]
      norm_num
    have hw1 : w ≤ 1 := by rw [hw']; linarith
    have hr₁ : (AsyncRateLimiter.refill (⟨s.rate, s.burst, 0, now⟩ :
        AsyncRateLimiter) (now + w)).tokens = w := by
      simp only [AsyncRateLimiter.refill, hrate]
      ring_nf
      exact min_eq_right (hw1.trans hbq)
    by_cases hlt : w < 1
    · refine ⟨⟨s.rate, s.burst, 0, now + w⟩, ?_, by rw [hw']; ring, by linarith⟩
      have h2 := @acquire_wait_path ⟨s.rate, s.burst, 0, now⟩ 1 (now + w)
        (by exact_mod_cast hb) (by rw [hr₁]; exact_mod_cast hlt)
      rw [h2, hr₁]
      simp [hrate]
    · have hweq : w = 1 := le_antisymm hw1 (not_lt.mp hlt)
      refine ⟨⟨s.rate, s.burst, 0, now + w⟩, ?_, by rw [hw']; ring, by linarith⟩
      have h2 := @acquire_immediate_path ⟨s.rate, s.burst, 0, now⟩ 1 (now + w)
        (by exact_mod_cast hb) (by rw [hr₁, hweq]; norm_num)
      rw [h2, hr₁, hweq]
      simp
  · simp only [AcquireResult.ok.injEq] at hacq
    exact absurd (hacq.1 ▸ hwpos) (by norm_num)

/-- Witness for C3 (amended): empty `rate = 1, burst = 1` bucket; the wait
path sleeps `w = 1`, and the immediate follow-up call waits `1 - 1 = 0`. -/
theorem acquire_after_wait_partial_credit_witness :
    ∃ s₂, AsyncRateLimiter.acquire ⟨1, 1, 0, 0⟩ 1 (0 + 1) = .ok (1 - 1) s₂ ∧
      1 - 1 = (AsyncRateLimiter.refill ⟨1, 1, 0, 0⟩ 0).tokens ∧ (1 : ℚ) - 1 < 1 :=
  acquire_after_wait_partial_credit ⟨1, 1, 0, 0⟩ ⟨1, 1, 0, 0⟩ 0 1 rfl
    (by norm_num) (by norm_num) (by norm_num) (by norm_num)
    (by norm_num [AsyncRateLimiter.acquire, min_def])

/-- The limiter state after `n` consecutive back-to-back `acquire(1)` calls
all issued at the same monotonic reading `now` (zero-wait calls consume no
time, so back-to-back calls share one reading). -/
def acquireRun (s : AsyncRateLimiter) (now : ℚ) : ℕ → AsyncRateLimiter
  | 0 => s
  | n + 1 => ((acquireRun s now n).acquire 1 now).state

/-- The outcome of the `(n+1)`-th of those back-to-back `acquire(1)` calls. -/
def acquireRunNext (s : AsyncRateLimiter) (now : ℚ) (n : ℕ) : AcquireResult :=
  (acquireRun s now n).acquire 1 now

lemma acquire_one_full_init (rate : ℚ) (burst : ℤ) (now0 now : ℚ)
    (hb : 1 ≤ burst) (hm : now0 ≤ now) (hr : 0 ≤ rate) :
    AsyncRateLimiter.acquire (AsyncRateLimiter.init rate burst now0) 1 now =
      .ok 0 ⟨rate, burst, (burst : ℚ) - 1, now⟩ := by
  have hrefill : (AsyncRateLimiter.refill (AsyncRateLimiter.init rate burst now0)
      now).tokens = (burst : ℚ) := by
    simp only [AsyncRateLimiter.refill, AsyncRateLimiter.init]
    exact min_eq_left (le_add_of_nonneg_right
      (mul_nonneg (sub_nonneg.mpr hm) hr))
  have h := @acquire_immediate_path (AsyncRateLimiter.init rate burst now0) 1 now
    hb (by rw [hrefill]; exact_mod_cast hb)
  rw [h, hrefill]
  rfl

lemma acquire_one_partial (rate : ℚ) (burst : ℤ) (now : ℚ) (m : ℚ)
    (hb : 1 ≤ burst) (h1 : 1 ≤ m) (h2 : m ≤ (burst : ℚ)) :
    AsyncRateLimiter.acquire (⟨rate, burst, m, now⟩ : AsyncRateLimiter) 1 now =
      .ok 0 ⟨rate, burst, m - 1, now⟩ := by
  have hrefill : (AsyncRateLimiter.refill (⟨rate, burst, m, now⟩ :
      AsyncRateLimiter) now).tokens = m := by
    simp only [AsyncRateLimiter.refill]
    ring_nf
    exact min_eq_right h2
  have h := @acquire_immediate_path ⟨rate, burst, m, now⟩ 1 now
    hb (by rw [hrefill]; exact_mod_cast h1)
  rw [h, hrefill]
  rfl

lemma acquireRun_init (rate : ℚ) (burst : ℤ) (now0 now : ℚ)
    (hr : 0 ≤ rate) (hb : 1 ≤ burst) (hm : now0 ≤ now) :
    ∀ k, 1 ≤ k → k ≤ burst.toNat →
      acquireRun (AsyncRateLimiter.init rate burst now0) now k =
        ⟨rate, burst, (burst : ℚ) - (k : ℚ), now⟩ := by
  intro k
  induction k with
  | zero => omega
  | succ n ih =>
    intro _ hle
    by_cases hn : n = 0
    · subst hn
      show ((AsyncRateLimiter.init rate burst now0).acquire 1 now).state = _
      rw [acquire_one_full_init rate burst now0 now hb hm hr]
      norm_num [AcquireResult.state]
    · have h1n : 1 ≤ n := by omega
      have hlen : n ≤ burst.toNat := by omega
      have hrw := ih h1n hlen
      have hmq : (1 : ℚ) ≤ (burst : ℚ) - (n : ℚ) := by
        have : (n : ℤ) + 1 ≤ burst := by omega
        have : ((n : ℚ) : ℚ) + 1 ≤ (burst : ℚ) := by exact_mod_cast this
        linarith
      have hmq2 : (burst : ℚ) - (n : ℚ) ≤ (burst : ℚ) := by
        have : (0 : ℚ) ≤ (n : ℚ) := by positivity
        linarith
      show ((acquireRun (AsyncRateLimiter.init rate burst now0) now n).acquire
        1 now).state = _
      rw [hrw, acquire_one_partial rate burst now ((burst : ℚ) - (n : ℚ)) hb hmq hmq2]
      simp only [AcquireResult.state, AsyncRateLimiter.mk.injEq, eq_self_iff_true,
        true_and, and_true]
      push_cast
      ring


/-- Claim C7: a freshly constructed limiter with `burst = B ≥ 1` and
`rate > 0` serves `B` consecutive back-to-back `acquire(1)` calls, each
completing with zero wait, and the `(B+1)`-th immediate `acquire(1)` call
sleeps exactly `1/rate` seconds (the spec's examples: `rate = 2, burst = 5`
gives five immediate calls then a `0.5` s wait — see the witness — and
`rate = 1, burst = 1` gives one immediate call then a `1.0` s wait). -/
theorem fresh_limiter_burst_then_wait (rate : ℚ) (burst : ℤ) (now0 now : ℚ)
    (hr : 0 < rate) (hb : 1 ≤ burst) (hm : now0 ≤ now) :
    (∀ k, k < burst.toNat →
      ∃ s', acquireRunNext (AsyncRateLimiter.init rate burst now0) now k =
        .ok 0 s') ∧
      acquireRunNext (AsyncRateLimiter.init rate burst now0) now burst.toNat =
        .ok (1 / rate) ⟨rate, burst, 0, now⟩ := by
  have hb0 : (0 : ℚ) ≤ (burst : ℚ) := by exact_mod_cast (by omega : (0 : ℤ) ≤ burst)
  constructor
  · intro k hk
    by_cases hk0 : k = 0
    · subst hk0
      refine ⟨⟨rate, burst, (burst : ℚ) - 1, now⟩, ?_⟩
      show (acquireRun (AsyncRateLimiter.init rate burst now0) now 0).acquire 1 now = _
      exact acquire_one_full_init rate burst now0 now hb hm (le_of_lt hr)
    · have h1k : 1 ≤ k := by omega
      have hkle : k ≤ burst.toNat := by omega
      have hrw := acquireRun_init rate burst now0 now (le_of_lt hr) hb hm k h1k hkle
      have hmq : (1 : ℚ) ≤ (burst : ℚ) - (k : ℚ) := by
        have hki : (k : ℤ) + 1 ≤ burst := by omega
        have h2 : (k : ℚ) + 1 ≤ (burst : ℚ) := by exact_mod_cast hki
        linarith
      have hmq2 : (burst : ℚ) - (k : ℚ) ≤ (burst : ℚ) := by
        have : (0 : ℚ) ≤ (k : ℚ) := by positivity
        linarith
      refine ⟨⟨rate, burst, (burst : ℚ) - (k : ℚ) - 1, now⟩, ?_⟩
      show (acquireRun (AsyncRateLimiter.init rate burst now0) now k).acquire 1 now = _
      rw [hrw]
      exact acquire_one_partial rate burst now _ hb hmq hmq2
  · have hBpos : 1 ≤ burst.toNat := by omega
    have hrw := acquireRun_init rate burst now0 now (le_of_lt hr) hb hm
      burst.toNat hBpos (le_refl _)
    have hcast : ((burst.toNat : ℚ)) = (burst : ℚ) := by
      have := Int.toNat_of_nonneg (by omega : (0 : ℤ) ≤ burst)
      exact_mod_cast this
    have hzero : (burst : ℚ) - (burst.toNat : ℚ) = 0 := by rw [hcast]; ring
    show (acquireRun (AsyncRateLimiter.init rate burst now0) now
      burst.toNat).acquire 1 now = _
    rw [hrw, hzero]
    have hrefill : (AsyncRateLimiter.refill (⟨rate, burst, 0, now⟩ :
        AsyncRateLimiter) now).tokens = 0 := by
      simp only [AsyncRateLimiter.refill]
      ring_nf
      exact min_eq_right hb0
    have h := @acquire_wait_path ⟨rate, burst, 0, now⟩ 1 now
      hb (by rw [hrefill]; norm_num)
    rw [h, hrefill]
    norm_num

/-- Witness for C7, the spec's first example: `rate = 2, burst = 5` — five
immediate `acquire(1)` calls, then the sixth sleeps `1/2` second. -/
theorem fresh_limiter_burst_then_wait_witness :
    (∀ k, k < 5 →
      ∃ s', acquireRunNext (AsyncRateLimiter.init 2 5 0) 0 k = .ok 0 s') ∧
      acquireRunNext (AsyncRateLimiter.init 2 5 0) 0 5 = .ok (1 / 2) ⟨2, 5, 0, 0⟩ :=
  fresh_limiter_burst_then_wait 2 5 0 0 (by norm_num) (by norm_num) (le_refl 0)

/-- A collection of independently constructed limiter instances, one per
index: the shallow counterpart of the Python object heap restricted to
`AsyncRateLimiter` objects. `__init__` stores every mutable field
(`rate`, `burst`, `tokens`, `last_update`, plus a per-instance lock) on
`self`, and the class has no class-level or module-level mutable state, so
an `acquire` call on instance `i` rewrites index `i` alone. -/
def LimiterHeap : Type := ℕ → AsyncRateLimiter

/-- Calling `acquire` on the instance at index `i` of the heap: only that
index is replaced by the call's post state. -/
def heapAcquire (h : LimiterHeap) (i : ℕ) (tokens : ℤ) (now : ℚ) : LimiterHeap :=
  fun j => if j = i then ((h i).acquire tokens now).state else h j

/-- Claim C8: two distinct limiter instances share no state — an `acquire`
call executed on the instance at index `i` (whether it raises, deducts
immediately, exhausts the bucket or takes the wait path) leaves every
field (`rate`, `burst`, `tokens`, `last_update`) of the instance at any
other index `j` unchanged. -/
theorem acquire_no_shared_state (h : LimiterHeap) (i j : ℕ) (tokens : ℤ)
    (now : ℚ) (hij : j ≠ i) :
    (heapAcquire h i tokens now j).rate = (h j).rate ∧
      (heapAcquire h i tokens now j).burst = (h j).burst ∧
      (heapAcquire h i tokens now j).tokens = (h j).tokens ∧
      (heapAcquire h i tokens now j).last_update = (h j).last_update := by
  simp [heapAcquire, hij]

/-- Witness for C8: a heap of two fresh limiters; exhausting the one at
index `0` leaves the one at index `1` untouched. -/
theorem acquire_no_shared_state_witness :
    (heapAcquire (fun _ => AsyncRateLimiter.init 1 1 0) 0 1 0 1).rate =
        (AsyncRateLimiter.init 1 1 0).rate ∧
      (heapAcquire (fun _ => AsyncRateLimiter.init 1 1 0) 0 1 0 1).burst =
        (AsyncRateLimiter.init 1 1 0).burst ∧
      (heapAcquire (fun _ => AsyncRateLimiter.init 1 1 0) 0 1 0 1).tokens =
        (AsyncRateLimiter.init 1 1 0).tokens ∧
      (heapAcquire (fun _ => AsyncRateLimiter.init 1 1 0) 0 1 0 1).last_update =
        (AsyncRateLimiter.init 1 1 0).last_update :=
  acquire_no_shared_state (fun _ => AsyncRateLimiter.init 1 1 0) 0 1 1 0
    (by norm_num)
